import Mathlib

/-!
Verification of the db-benchmarking load-generation pipeline.

This file gives a shallow embedding, in Lean 4, of the parts of the
benchmark harness that its specification makes claims about:

* the producer pacing loop and its refill logic
  (`src/benchmark/producer.py`, `src/benchmark/patient_generator.py`),
* the per-process record-share and ordinal-range partitioning done by the
  multiprocessing orchestrator (`src/main.py`),
* the insert-worker batching loop and its statistics updates
  (`src/benchmark/base_worker.py`),
* the two-level progress aggregation (`src/benchmark/progress.py`),
* the backend surface actually exported by the postgres and clickhouse
  modules (`src/benchmark/postgres/backend.py`,
  `src/benchmark/clickhouse/backend.py`).

Real time (Python floats from `time.perf_counter`) is modelled by `ℚ`;
loops whose iteration count depends on the wall clock are modelled as
functions of the finite list of successive clock readings they observe.
Python keyword-argument binding is modelled by name lists, so that a call
supplying a keyword the callee does not declare can be seen to raise
`TypeError` rather than run.
-/

set_option autoImplicit false

/-! ### Python call binding for `run_producer`

`run_producer` (src/benchmark/producer.py, lines 36-44) declares exactly
the parameters below.  `run_load` (src/benchmark/runner.py, lines 159-168)
invokes it in fixed-count mode with the keyword arguments below, including
`max_records`.  In Python a call binds only if every supplied keyword names
a declared parameter; otherwise it raises `TypeError` before the body runs.
-/

/-- Parameter names of `run_producer` as declared in src/benchmark/producer.py. -/
def runProducerParams : List String :=
  ["duration_sec", "patient_count", "insertion_queue", "num_workers",
   "target_rps", "patient_start", "sentinels"]

/-- Keyword-argument names used by the fixed-count call of `run_producer`
inside `run_load` (src/benchmark/runner.py lines 159-168). -/
def runLoadFixedCountKwargs : List String :=
  ["duration_sec", "patient_count", "insertion_queue", "num_workers",
   "target_rps", "patient_start", "sentinels", "max_records"]

/-- A Python call binds (does not raise `TypeError`) only when every supplied
keyword argument names a declared parameter of the callee. -/
def kwargsAccepted (params kwargs : List String) : Bool :=
  kwargs.all (fun k => params.contains k)

/-! ### Producer pacing loop

`run_producer` computes `interval = 1.0 / target_rps if target_rps > 0 else 0.0`
and then loops `while time.perf_counter() - start < duration_sec`, emitting a
record whenever `now >= next_put_at` (resynchronising the deadline when it has
fallen behind) and otherwise sleeping a short slice.  The loop is modelled as
a function of the list of successive `perf_counter` readings it observes: one
reading per iteration, the loop exiting (and reading no further clocks) as
soon as the duration check fails.
-/

/-- The emission interval computed by `run_producer`
(src/benchmark/producer.py line 50): `1.0 / target_rps` when
`target_rps > 0`, else `0.0` (guarding the division). -/
def producerInterval (targetRps : Int) : ℚ :=
  if 0 < targetRps then 1 / (targetRps : ℚ) else 0

/-- State of the producer pacing loop: the next emission deadline and the
number of records emitted so far. -/
structure ProducerState where
  nextPutAt : ℚ
  emitted : ℕ
  deriving Repr, DecidableEq

/-- One-reading-per-iteration model of the `run_producer` pacing loop
(src/benchmark/producer.py lines 51-65).  `clocks` is the stream of
`time.perf_counter()` readings; the loop stops at the first reading with
`now - start ≥ duration` (and stops when the stream is exhausted). -/
def producerLoop (duration start interval : ℚ) :
    List ℚ → ProducerState → ProducerState
  | [], s => s
  | now :: rest, s =>
    if now - start < duration then
      if s.nextPutAt ≤ now then
        let n1 := s.nextPutAt + interval
        let n2 := if n1 < now then now + interval else n1
        producerLoop duration start interval rest ⟨n2, s.emitted + 1⟩
      else
        producerLoop duration start interval rest s
    else s

/-! ### Record shares and ordinal ranges (orchestrator)

`_run_load_process` (src/main.py line 41) computes each child's record share
as `total_records // processes + (1 if process_index < total_records % processes else 0)`
(the same formula is used in the parent, src/main.py lines 138-141), and the
parent assigns ordinal range starts by prefix sums (src/main.py lines 142-144).
-/

/-- Per-process record share: `total_records // processes + (1 if i < total_records % processes else 0)`
(src/main.py line 41 and lines 138-141). -/
def recordsForProcess (totalRecords processes i : ℕ) : ℕ :=
  totalRecords / processes + (if i < totalRecords % processes then 1 else 0)

/-- Per-process rate share, same remainder rule applied to `rows_per_second`
(src/main.py line 42). -/
def rpsForProcess (rowsPerSecond processes i : ℕ) : ℕ :=
  rowsPerSecond / processes + (if i < rowsPerSecond % processes then 1 else 0)

/-- `patient_starts` prefix sums (src/main.py lines 142-144):
`patient_starts[0] = base_start`, and
`patient_starts[i+1] = patient_starts[i] + records_per_process_list[i]`. -/
def patientStart (baseStart totalRecords processes : ℕ) : ℕ → ℕ
  | 0 => baseStart
  | i + 1 => patientStart baseStart totalRecords processes i
      + recordsForProcess totalRecords processes i

/-- Python `int()` truncation toward zero, applied to a rational. -/
def pyIntTrunc (x : ℚ) : ℤ :=
  if 0 ≤ x then ⌊x⌋ else ⌈x⌉

/-- Command-line arguments of `main` (src/main.py) that its validation and
partitioning logic reads. -/
structure MainArgs where
  duration : ℚ
  batchSize : ℤ
  batchWaitSec : ℚ
  workers : ℤ
  patientCount : ℤ
  rowsPerSecond : ℤ
  processes : ℤ
  queriesPerRecord : ℤ
  deriving Repr, DecidableEq

/-- `total_records = int(args.duration * args.rows_per_second)` (src/main.py line 127). -/
def mainTotalRecords (a : MainArgs) : ℤ :=
  pyIntTrunc (a.duration * (a.rowsPerSecond : ℚ))

/-- The eager configuration checks of `main` (src/main.py lines 120-129):
`workers >= 1`, `processes >= 1`, `batch_wait_sec > 0`, and
`total_records >= 1`.  `True` means no `parser.error` fires and `main`
proceeds to spawn the pipeline. -/
def mainValidationPasses (a : MainArgs) : Bool :=
  decide (1 ≤ a.workers) && decide (1 ≤ a.processes) &&
  decide (0 < a.batchWaitSec) && decide (1 ≤ mainTotalRecords a)

/-- Whether the child process `_run_load_process` (src/main.py lines 41-44)
actually enters `run_load`: it returns immediately (before ever touching the
start barrier) when its computed record share is `<= 0`. -/
def childEntersPipeline (totalRecords processes i : ℕ) : Bool :=
  decide (0 < recordsForProcess totalRecords processes i)

/-- Number of parties of the start barrier created by the parent when
`processes > 1`: `multiprocessing.Barrier(args.processes + 1)`
(src/main.py line 159). -/
def barrierParties (processes : ℕ) : ℕ := processes + 1

/-- Number of threads of control that ever call `wait()` on the start
barrier: the parent (src/main.py line 194) plus every child that enters
`run_load` and reaches src/benchmark/runner.py lines 123-124.  A child whose
record share is `<= 0` returns from `_run_load_process` without waiting. -/
def barrierWaiters (totalRecords processes : ℕ) : ℕ :=
  1 + (List.range processes).countP
        (fun i => childEntersPipeline totalRecords processes i)

/-! ### Backend module surface (attribute lookup)

The names defined at top level of src/benchmark/postgres/backend.py and of
src/benchmark/clickhouse/backend.py.  `getattr` on a module resolves exactly
the names the module defines; referencing a missing one raises
`AttributeError`.
-/

/-- Top-level names defined by src/benchmark/postgres/backend.py. -/
def pgBackendModuleNames : List String :=
  ["logger", "create_pool", "prewarm_pool", "_HL7_COLUMNS",
   "_row_from_producer_tuple", "init_schema", "insert_batch",
   "query_by_primary_key"]

/-- Top-level names defined by src/benchmark/clickhouse/backend.py. -/
def chBackendModuleNames : List String :=
  ["logger", "create_pool", "prewarm_pool", "init_schema",
   "init_schema_standalone", "_HL7_COLUMNS", "_row_from_producer_tuple",
   "insert_batch", "query_by_primary_key", "get_max_patient_counter",
   "get_max_patient_counter_standalone"]

/-- Whether an attribute reference on a module resolves (no `AttributeError`). -/
def moduleResolves (moduleNames : List String) (attr : String) : Bool :=
  moduleNames.contains attr

/-- Whether the attribute reference made by `get_max_patient_counter_from_db`
(src/benchmark/runner.py lines 28-39) on the selected backend module
resolves.  For postgres it references
`pg_backend.get_max_patient_counter_standalone`; for clickhouse,
`ch_backend.get_max_patient_counter_standalone`. -/
def getMaxPatientCounterFromDbResolves (database : String) : Bool :=
  if database = "postgres" then
    moduleResolves pgBackendModuleNames "get_max_patient_counter_standalone"
  else
    moduleResolves chBackendModuleNames "get_max_patient_counter_standalone"

/-- Whether `PostgresWorker.get_max_patient_counter`
(src/benchmark/postgres/worker.py lines 147-153) resolves its call target
`backend.get_max_patient_counter`. -/
def pgWorkerGetMaxResolves : Bool :=
  moduleResolves pgBackendModuleNames "get_max_patient_counter"

/-- Whether `ClickHouseWorker.get_max_patient_counter`
(src/benchmark/clickhouse/worker.py lines 165-171) resolves its call target
`backend.get_max_patient_counter`. -/
def chWorkerGetMaxResolves : Bool :=
  moduleResolves chBackendModuleNames "get_max_patient_counter"

/-- Semantics of the clickhouse `get_max_patient_counter` query
(src/benchmark/clickhouse/backend.py lines 216-223):
`SELECT COALESCE(MAX(toInt64OrZero(substring(PATIENT_ID, 10))), -1) ...`
over the stored patient ordinals: `-1` when no rows exist, else the maximum
stored ordinal. -/
def chGetMaxPatientCounter (ordinals : List ℤ) : ℤ :=
  match ordinals with
  | [] => -1
  | o :: os => os.foldl max o

/-! ### Patient generation and producer refill (ordinal view)

`generate_bulk_patients` (src/benchmark/patient_generator.py) produces
`n_unique = max(1, int(total * (1 - duplicate_ratio)))` unique patients with
consecutive ordinals `start, start+1, ...` followed by
`total - n_unique` duplicates, duplicate `j` copying patient `j % n_unique`.
With the default `duplicate_ratio = 0.25` (the producer always uses the
default), `int(total * 0.75) = 3 * total / 4` exactly, since `total * 0.75`
is exact in binary floating point for any realistic `total`.  Each generated
record is abstracted to its ordinal plus its `is_original` flag.
-/

/-- `n_unique = max(1, int(total * 0.75))`, shared by
src/benchmark/patient_generator.py line 19 (with `duplicate_ratio = 0.25`)
and src/benchmark/producer.py line 24. -/
def nUnique (total : ℕ) : ℕ := max 1 (3 * total / 4)

/-- Ordinal-level model of `generate_bulk_patients(start, total)`
(src/benchmark/patient_generator.py lines 12-70): `n_unique` originals with
ordinals `start + i`, then `total - n_unique` duplicates, duplicate `j`
copying the original with ordinal `start + (j % n_unique)`. -/
def generateBulkPatients (start total : ℕ) : List (ℕ × Bool) :=
  (List.range (nUnique total)).map (fun i => (start + i, true)) ++
  (List.range (total - nUnique total)).map
    (fun j => (start + (j % nUnique total), false))

/-- Producer emission model built on `_next_record`
(src/benchmark/producer.py lines 17-33): pop the front of the buffered
patient list, refilling it with `generate_bulk_patients(total := patient_count,
start := patient_start)` and advancing `patient_start` by `n_unique` whenever
the buffer is empty.  `producerEmitted e buf pc start` is the list of
(ordinal, is_original) pairs emitted by `e` successive `_next_record` calls. -/
def producerEmitted : ℕ → List (ℕ × Bool) → ℕ → ℕ → List (ℕ × Bool)
  | 0, _, _, _ => []
  | e + 1, [], pc, start =>
    match generateBulkPatients start pc with
    | [] => []
    | p :: rest => p :: producerEmitted e rest pc (start + nUnique pc)
  | e + 1, p :: rest, pc, start => p :: producerEmitted e rest pc start

/-! ### Insert-worker flush statistics

`BaseInsertWorker._flush` (src/benchmark/base_worker.py lines 74-96) inserts
the batch, then under `inserted_lock` adds the backend's `insert_batch`
return value to `inserted_shared[0]`, the number of records with
`is_original = True` to `inserted_shared[1]`, the remaining
`len(batch) - n_originals` to `inserted_shared[2]`, and the flush's wall
latency to `inserted_shared[3]`.  Records are `(patient_id, type, json,
is_original)` tuples; only the flag matters to the counters.
-/

/-- A producer record `(patient_id, message_type, json_message, is_original)`
(src/benchmark/producer.py line 32). -/
structure PRecord where
  patientId : String
  messageType : String
  jsonMessage : String
  isOriginal : Bool
  deriving Repr, DecidableEq

/-- Return value of `insert_batch` in src/benchmark/postgres/backend.py
lines 129-142: `0` for an empty list, else `len(rows)`. -/
def pgInsertBatchReturn (rows : List PRecord) : ℕ :=
  if rows.isEmpty then 0 else rows.length

/-- Return value of `insert_batch` in src/benchmark/clickhouse/backend.py
lines 188-203: `0` for an empty list, else `len(rows)`. -/
def chInsertBatchReturn (rows : List PRecord) : ℕ :=
  if rows.isEmpty then 0 else rows.length

/-- The shared insert counters `[total, originals, duplicates,
total_insert_latency_sec]` (src/benchmark/runner.py line 85). -/
structure InsertedStats where
  total : ℕ
  originals : ℕ
  duplicates : ℕ
  latencySec : ℚ
  deriving Repr, DecidableEq

/-- The all-zero initial counters. -/
def initialInserted : InsertedStats := ⟨0, 0, 0, 0⟩

/-- The locked counter update performed by one `_flush(batch)`
(src/benchmark/base_worker.py lines 76-90), parametrised by the backend's
`insert_batch` return value.  An empty batch returns without touching the
counters (line 76-77). -/
def flushUpdate (insertReturn : List PRecord → ℕ) (s : InsertedStats)
    (batch : List PRecord) (latency : ℚ) : InsertedStats :=
  if batch.isEmpty then s
  else
    let n := insertReturn batch
    let nOriginals := batch.countP (fun r => r.isOriginal)
    { total := s.total + n
      originals := s.originals + nOriginals
      duplicates := s.duplicates + (batch.length - nOriginals)
      latencySec := s.latencySec + latency }

/-- Counter state after a sequence of flushes, each carrying its batch and
measured latency.  Because every update happens under `inserted_lock` and
readers take the same lock, every observation point sees the state after
some prefix of the flush sequence. -/
def statsAfter (insertReturn : List PRecord → ℕ)
    (flushes : List (List PRecord × ℚ)) : InsertedStats :=
  flushes.foldl (fun s f => flushUpdate insertReturn s f.1 f.2) initialInserted

/-! ### Queue items and shutdown sentinels

`INSERTION_SENTINEL = None` and `QUERY_SENTINEL = object()`
(src/benchmark/config.py lines 15-17).  The insertion queue carries either a
producer record (a 4-tuple, src/benchmark/producer.py line 32) or `None`;
the query queue carries either an `(mrn, insert_time)` pair
(src/benchmark/base_worker.py line 94) or the unique sentinel object.
Python's `is` test distinguishes `None` and the fresh object from every
tuple, which the disjoint constructors model.
-/

/-- An item on the insertion queue: a producer record or `INSERTION_SENTINEL`
(`None`). -/
inductive InsItem where
  | sentinel : InsItem
  | record (r : PRecord) : InsItem
  deriving Repr, DecidableEq

/-- An item on the query queue: an `(mrn, insert_time)` pair or
`QUERY_SENTINEL` (a unique fresh object). -/
inductive QueryItem where
  | sentinel : QueryItem
  | task (mrn : String) (insertTime : ℚ) : QueryItem
  deriving Repr, DecidableEq

/-! ### Insert-worker batching loop

`BaseInsertWorker.run` (src/benchmark/base_worker.py lines 102-129) polls the
insertion queue with timeout `min(0.1, max(0.001, batch_wait_sec - batch_elapsed))`,
flushes on `len(accumulated) >= batch_size` after an append, flushes on a
poll timeout when the buffer is nonempty and `now - batch_start >= batch_wait_sec`,
and on the sentinel flushes any leftover buffer and returns.  `batch_start`
is reset only at worker start and immediately after a flush.  The loop is
modelled over the list of observed queue interactions, each stamped with the
`perf_counter` reading the iteration works with.
-/

/-- The poll timeout `min(self._GET_POLL_SEC, max(0.001, self.batch_wait_sec - batch_elapsed))`
with `_GET_POLL_SEC = 0.1` (src/benchmark/base_worker.py lines 100-109). -/
def getPollTimeout (batchWaitSec batchElapsed : ℚ) : ℚ :=
  min (1 / 10) (max (1 / 1000) (batchWaitSec - batchElapsed))

/-- One observed interaction of the worker loop with the insertion queue:
a record received at clock `t`, the sentinel received at clock `t`, or a
`queue.Empty` timeout whose subsequent `perf_counter()` call reads `t`. -/
inductive QEvent where
  | got (t : ℚ) (r : PRecord) : QEvent
  | sentinelAt (t : ℚ) : QEvent
  | emptyAt (t : ℚ) : QEvent
  deriving Repr, DecidableEq

/-- One flush performed by the worker loop: the clock at which it happened,
the buffered records with their arrival clocks, the value of `batch_start`
at the moment of the flush, and which trigger fired. -/
structure FlushEvent where
  time : ℚ
  records : List (ℚ × PRecord)
  batchStartAtFlush : ℚ
  byTimeout : Bool
  onSentinel : Bool
  deriving Repr, DecidableEq

/-- Model of the `BaseInsertWorker.run` loop (src/benchmark/base_worker.py
lines 102-129) over a list of queue interactions.  `batch` is `accumulated`
(with arrival clocks) and `batchStart` is `batch_start`; the returned list
records every `_flush` call in order.  The loop returns at the first
sentinel, flushing a nonempty leftover buffer (lines 119-123). -/
def workerLoop (batchSize : ℕ) (batchWaitSec : ℚ) :
    List QEvent → List (ℚ × PRecord) → ℚ → List FlushEvent
  | [], _, _ => []
  | QEvent.got t r :: rest, batch, batchStart =>
    let batch' := batch ++ [(t, r)]
    if batchSize ≤ batch'.length then
      ⟨t, batch', batchStart, false, false⟩ ::
        workerLoop batchSize batchWaitSec rest [] t
    else
      workerLoop batchSize batchWaitSec rest batch' batchStart
  | QEvent.emptyAt t :: rest, batch, batchStart =>
    if batch.isEmpty then
      workerLoop batchSize batchWaitSec rest batch batchStart
    else if batchWaitSec ≤ t - batchStart then
      ⟨t, batch, batchStart, true, false⟩ ::
        workerLoop batchSize batchWaitSec rest [] t
    else
      workerLoop batchSize batchWaitSec rest batch batchStart
  | QEvent.sentinelAt t :: _, batch, batchStart =>
    if batch.isEmpty then [] else [⟨t, batch, batchStart, false, true⟩]

/-- All records written by a list of flushes, in order. -/
def flushedRecords (flushes : List FlushEvent) : List PRecord :=
  flushes.flatMap (fun f => f.records.map Prod.snd)

/-- Arrival clock of the oldest record of a flush, if any. -/
def oldestArrival (f : FlushEvent) : Option ℚ :=
  f.records.head?.map Prod.fst

/-! ### Two-level progress aggregation

`run_aggregated_progress_logger` (src/benchmark/progress.py lines 114-165)
keeps `last_stats`, a per-process-index table of the latest received
snapshot (initialised to all-zero entries for every index), and on each
tick drains all available `(process_index, stats)` messages, overwrites the
table entries, and logs the elementwise sums.  The loop body is
`stop_event.wait(interval); if stop_event.is_set(): break` — when the stop
event is observed the loop breaks with no final drain-and-log pass.  Each
trip through the loop is modelled as a `WaitOutcome`: either the wait saw
the stop event (break) or it timed out having some drained messages
available.
-/

/-- One six-component statistics snapshot `(totalInserted, originalInserted,
duplicateInserted, cumulativeInsertLatency, queryCount, cumulativeQueryLatency)`
(src/benchmark/progress.py line 16). -/
structure Snap where
  total : ℚ
  originals : ℚ
  duplicates : ℚ
  insertLatency : ℚ
  queryCount : ℚ
  queryLatency : ℚ
  deriving Repr, DecidableEq

/-- The all-zero snapshot, the initial `last_stats` entry for every process
index (src/benchmark/progress.py line 121). -/
def zeroSnap : Snap := ⟨0, 0, 0, 0, 0, 0⟩

/-- Elementwise sum of two snapshots. -/
def snapAdd (a b : Snap) : Snap :=
  ⟨a.total + b.total, a.originals + b.originals, a.duplicates + b.duplicates,
   a.insertLatency + b.insertLatency, a.queryCount + b.queryCount,
   a.queryLatency + b.queryLatency⟩

/-- Elementwise order on snapshots. -/
def snapLe (a b : Snap) : Bool :=
  decide (a.total ≤ b.total) && decide (a.originals ≤ b.originals) &&
  decide (a.duplicates ≤ b.duplicates) &&
  decide (a.insertLatency ≤ b.insertLatency) &&
  decide (a.queryCount ≤ b.queryCount) &&
  decide (a.queryLatency ≤ b.queryLatency)

/-- A tagged progress message `(process_index, stats)` as put on the
cross-process queue (src/benchmark/progress.py line 190 and
src/benchmark/runner.py line 211). -/
def ProgressMsg : Type := ℕ × Snap

/-- What one trip through the aggregator loop observes: the wait saw the
stop event (the loop breaks), or the wait timed out and the subsequent
non-blocking drain obtained the listed messages. -/
inductive WaitOutcome where
  | stopped : WaitOutcome
  | timedOut (drained : List ProgressMsg) : WaitOutcome

/-- `last_stats[process_index] = stats` (src/benchmark/progress.py line 137),
on the table viewed as a total map from indices to snapshots. -/
def updateStats (f : ℕ → Snap) (m : ProgressMsg) : ℕ → Snap :=
  fun j => if m.1 = j then m.2 else f j

/-- Elementwise sum of the table entries for indices `0 .. n-1`
(src/benchmark/progress.py lines 140-145). -/
def sumStats (n : ℕ) (f : ℕ → Snap) : Snap :=
  (List.range n).foldl (fun acc i => snapAdd acc (f i)) zeroSnap

/-- Model of the `run_aggregated_progress_logger` loop (src/benchmark/progress.py
lines 128-165): on a stop observation it breaks immediately (no drain, no
log); on a timed-out wait it drains the available messages into `last_stats`
and logs the elementwise sums.  The returned list holds the logged
cumulative totals, one per tick. -/
def aggLoop (n : ℕ) : List WaitOutcome → (ℕ → Snap) → List Snap
  | [], _ => []
  | WaitOutcome.stopped :: _, _ => []
  | WaitOutcome.timedOut msgs :: rest, f =>
    let f' := msgs.foldl updateStats f
    sumStats n f' :: aggLoop n rest f'

/-- Modelled from the spec: the latest snapshot received for process index
`i` in a message sequence, `zeroSnap` when none has arrived (spec section
4.4 and the AggregatedSnapshot data-model entry). -/
def latestSnap (msgs : List ProgressMsg) (i : ℕ) : Snap :=
  msgs.foldl (fun acc m => if m.1 = i then m.2 else acc) zeroSnap

/-- Modelled from the spec: per tick, the cross-process total is the
elementwise sum over all process indices of the latest snapshot received
from each index (missing indices contributing zero).  `acc` carries the
messages drained before the remaining ticks. -/
def aggSpecTotals (n : ℕ) : List WaitOutcome → List ProgressMsg → List Snap
  | [], _ => []
  | WaitOutcome.stopped :: _, _ => []
  | WaitOutcome.timedOut msgs :: rest, acc =>
    sumStats n (latestSnap (acc ++ msgs)) :: aggSpecTotals n rest (acc ++ msgs)

/-- All messages the aggregator loop ever drains, in drain order. -/
def drainedMsgs : List WaitOutcome → List ProgressMsg
  | [] => []
  | WaitOutcome.stopped :: _ => []
  | WaitOutcome.timedOut msgs :: rest => msgs ++ drainedMsgs rest

/-- The snapshots sent for process index `i`, in order, within a message
sequence. -/
def projMsgs (i : ℕ) (msgs : List ProgressMsg) : List Snap :=
  msgs.filterMap (fun m => if m.1 = i then some m.2 else none)

/-- The Python `record is INSERTION_SENTINEL` test performed by the worker
loop (src/benchmark/base_worker.py line 119): true exactly on the sentinel,
false on every 4-tuple record. -/
def isInsertionSentinel : InsItem → Bool
  | InsItem.sentinel => true
  | InsItem.record _ => false

/-- The Python `item is QUERY_SENTINEL` test performed by the query workers
(src/benchmark/postgres/worker.py line 32, src/benchmark/clickhouse/worker.py
line 40): true exactly on the unique sentinel object, false on every
`(mrn, insert_time)` pair. -/
def isQuerySentinel : QueryItem → Bool
  | QueryItem.sentinel => true
  | QueryItem.task _ _ => false

/-- Starting ordinal of producer thread `idx` in the duration-based
multi-producer path: `patient_start_base + producer_index * patient_start_stride`
with `patient_start_stride = 10_000_000` (src/benchmark/runner.py lines 119
and 178). -/
def producerThreadStart (base idx : ℕ) : ℕ := base + idx * 10000000

/-! ## Helper lemmas -/

/-- `insert_batch` (postgres) returns exactly the number of rows passed in. -/
theorem pgInsertBatchReturn_eq_length (rows : List PRecord) :
    pgInsertBatchReturn rows = rows.length := by
  cases rows <;> simp [pgInsertBatchReturn]

/-- `insert_batch` (clickhouse) returns exactly the number of rows passed in. -/
theorem chInsertBatchReturn_eq_length (rows : List PRecord) :
    chInsertBatchReturn rows = rows.length := by
  cases rows <;> simp [chInsertBatchReturn]

/-- Core conservation invariant of the flush fold, generalised over the
starting counters. -/
theorem statsFold_conserves (insertReturn : List PRecord → ℕ)
    (hret : ∀ b, insertReturn b = b.length) :
    ∀ (flushes : List (List PRecord × ℚ)) (s : InsertedStats),
      ((flushes.foldl (fun s f => flushUpdate insertReturn s f.1 f.2) s).total
        = s.total + (flushes.map (fun f => f.1.length)).sum) ∧
      ((flushes.foldl (fun s f => flushUpdate insertReturn s f.1 f.2) s).originals
        + (flushes.foldl (fun s f => flushUpdate insertReturn s f.1 f.2) s).duplicates
        = s.originals + s.duplicates + (flushes.map (fun f => f.1.length)).sum) := by
  intro flushes
  induction flushes with
  | nil => intro s; simp
  | cons f rest ih =>
    intro s
    have hcount : f.1.countP (fun r => r.isOriginal) ≤ f.1.length :=
      List.countP_le_length _
    have hs' : (flushUpdate insertReturn s f.1 f.2).total = s.total + f.1.length ∧
        (flushUpdate insertReturn s f.1 f.2).originals
          + (flushUpdate insertReturn s f.1 f.2).duplicates
          = s.originals + s.duplicates + f.1.length := by
      by_cases hemp : f.1.isEmpty = true
      · have hnil : f.1 = [] := by simpa using hemp
        simp [flushUpdate, hemp, hnil]
      · refine ⟨?_, ?_⟩
        · simp [flushUpdate, hemp, hret]
        · simp [flushUpdate, hemp, hret]
          omega
    rcases hs' with ⟨ht, ho⟩
    rcases ih (flushUpdate insertReturn s f.1 f.2) with ⟨h1, h2⟩
    constructor
    · rw [List.foldl_cons, List.map_cons, List.sum_cons, h1, ht]
      omega
    · rw [List.foldl_cons, List.map_cons, List.sum_cons]
      omega

/-- The pacing loop with interval `0` and monotone clock readings emits one
record per iteration for as long as the duration check passes. -/
theorem producerLoop_zero_interval_emits :
    ∀ (clocks : List ℚ) (d start : ℚ) (s : ProducerState),
      List.Chain' (· ≤ ·) clocks →
      (∀ t ∈ clocks.head?, s.nextPutAt ≤ t) →
      (producerLoop d start 0 clocks s).emitted =
        s.emitted + (clocks.takeWhile (fun t => decide (t - start < d))).length := by
  intro clocks
  induction clocks with
  | nil => intro d start s _ _; simp [producerLoop]
  | cons t rest ih =>
    intro d start s hchain hhead
    have hst : s.nextPutAt ≤ t := hhead t rfl
    by_cases hdur : t - start < d
    · have hn2 : (if s.nextPutAt + 0 < t then t + 0 else s.nextPutAt + 0) = t := by
        rcases eq_or_lt_of_le hst with h | h
        · simp [h]
        · simp [h, le_of_lt h]
      have hstep : producerLoop d start 0 (t :: rest) s
          = producerLoop d start 0 rest ⟨t, s.emitted + 1⟩ := by
        simp only [producerLoop, if_pos hdur, if_pos hst]
        rw [hn2]
      have hrest_head : ∀ u ∈ rest.head?,
          (⟨t, s.emitted + 1⟩ : ProducerState).nextPutAt ≤ u := by
        intro u hu
        cases rest with
        | nil => simp at hu
        | cons v rest' =>
          have huv : v = u := by simpa using hu
          subst huv
          exact (List.chain'_cons.mp hchain).1
      rw [hstep, ih d start ⟨t, s.emitted + 1⟩ hchain.tail hrest_head]
      have htw : List.takeWhile (fun u => decide (u - start < d)) (t :: rest)
          = t :: List.takeWhile (fun u => decide (u - start < d)) rest := by
        simp [List.takeWhile_cons, hdur]
      rw [htw]
      simp only [List.length_cons]
      omega
    · have htw : List.takeWhile (fun u => decide (u - start < d)) (t :: rest) = [] := by
        simp [List.takeWhile_cons, hdur]
      simp [producerLoop, if_neg hdur, htw]

/-- With duration `0` and clock readings at or after `start`, the pacing
loop exits on its first duration check and emits nothing. -/
theorem producerLoop_zero_duration :
    ∀ (clocks : List ℚ) (start interval : ℚ),
      (∀ t ∈ clocks, start ≤ t) →
      (producerLoop 0 start interval clocks ⟨start, 0⟩).emitted = 0 := by
  intro clocks start interval h
  cases clocks with
  | nil => rfl
  | cons t rest =>
    have ht : start ≤ t := h t (by simp)
    have hlt : ¬ (t - start < 0) := by
      simp only [not_lt, sub_nonneg]; exact ht
    simp [producerLoop, hlt]

/-- Unfolding of `flushedRecords` on a cons cell. -/
theorem flushedRecords_cons (f : FlushEvent) (fs : List FlushEvent) :
    flushedRecords (f :: fs) = f.records.map Prod.snd ++ flushedRecords fs := by
  simp [flushedRecords]

/-- A worker fed records followed by one sentinel flushes every record it
was fed (its pending buffer included), in order. -/
theorem workerLoop_consumes (batchSize : ℕ) (bw : ℚ) :
    ∀ (xs : List (ℚ × PRecord)) (tEnd : ℚ) (batch : List (ℚ × PRecord)) (bs0 : ℚ),
      flushedRecords (workerLoop batchSize bw
          ((xs.map fun p => QEvent.got p.1 p.2) ++ [QEvent.sentinelAt tEnd]) batch bs0)
        = batch.map Prod.snd ++ xs.map Prod.snd := by
  intro xs
  induction xs with
  | nil =>
    intro tEnd batch bs0
    by_cases hemp : batch.isEmpty = true
    · have hnil : batch = [] := by simpa using hemp
      simp [workerLoop, flushedRecords, hnil]
    · simp [workerLoop, hemp, flushedRecords]
  | cons x xs ih =>
    intro tEnd batch bs0
    simp only [List.map_cons, List.cons_append, workerLoop, List.append_eq]
    by_cases hsz : batchSize ≤ (batch ++ [(x.1, x.2)]).length
    · rw [if_pos hsz, flushedRecords_cons, ih tEnd [] x.1]
      simp
    · rw [if_neg hsz, ih tEnd (batch ++ [(x.1, x.2)]) bs0]
      simp

/-- Every flush of the worker loop is a full-batch flush, a timeout flush
whose elapsed time is measured from `batch_start`, or the sentinel flush. -/
theorem workerLoop_flush_triggers (batchSize : ℕ) (bw : ℚ) :
    ∀ (events : List QEvent) (batch : List (ℚ × PRecord)) (bs0 : ℚ),
      batch.length < batchSize →
      ∀ f ∈ workerLoop batchSize bw events batch bs0,
        (f.byTimeout = false → f.onSentinel = false → f.records.length = batchSize) ∧
        (f.byTimeout = true → bw ≤ f.time - f.batchStartAtFlush) := by
  intro events
  induction events with
  | nil => intro batch bs0 _ f hf; simp [workerLoop] at hf
  | cons ev rest ih =>
    intro batch bs0 hlen f hf
    cases ev with
    | got t r =>
      simp only [workerLoop] at hf
      by_cases hsz : batchSize ≤ (batch ++ [(t, r)]).length
      · rw [if_pos hsz] at hf
        rcases List.mem_cons.mp hf with hfl | hf'
        · subst hfl
          refine ⟨fun _ _ => ?_, fun hbt => by simp at hbt⟩
          show (batch ++ [(t, r)]).length = batchSize
          have h1 : (batch ++ [(t, r)]).length = batch.length + 1 := by simp
          omega
        · exact ih [] t (by simp; omega) f hf'
      · rw [if_neg hsz] at hf
        exact ih (batch ++ [(t, r)]) bs0 (by simp at hsz ⊢; omega) f hf
    | emptyAt t =>
      simp only [workerLoop] at hf
      by_cases hemp : batch.isEmpty = true
      · rw [if_pos hemp] at hf
        exact ih batch bs0 hlen f hf
      · rw [if_neg hemp] at hf
        by_cases htm : bw ≤ t - bs0
        · rw [if_pos htm] at hf
          rcases List.mem_cons.mp hf with hfl | hf'
          · subst hfl
            exact ⟨fun hbt _ => by simp at hbt, fun _ => htm⟩
          · exact ih [] t (by simp; omega) f hf'
        · rw [if_neg htm] at hf
          exact ih batch bs0 hlen f hf
    | sentinelAt t =>
      simp only [workerLoop] at hf
      by_cases hemp : batch.isEmpty = true
      · rw [if_pos hemp] at hf
        simp at hf
      · rw [if_neg hemp] at hf
        rcases List.mem_cons.mp hf with hfl | hf'
        · subst hfl
          exact ⟨fun _ hos => by simp at hos, fun hbt => by simp at hbt⟩
        · simp at hf'

/-- The `batch_start` recorded at each flush is the worker's start value for
the first flush and the previous flush's clock thereafter. -/
theorem workerLoop_batchStart_chain (batchSize : ℕ) (bw : ℚ) :
    ∀ (events : List QEvent) (batch : List (ℚ × PRecord)) (bs0 : ℚ),
      (∀ f ∈ (workerLoop batchSize bw events batch bs0).head?,
        f.batchStartAtFlush = bs0) ∧
      List.Chain' (fun f g => g.batchStartAtFlush = f.time)
        (workerLoop batchSize bw events batch bs0) := by
  intro events
  induction events with
  | nil => intro batch bs0; simp [workerLoop]
  | cons ev rest ih =>
    intro batch bs0
    cases ev with
    | got t r =>
      simp only [workerLoop]
      by_cases hsz : batchSize ≤ (batch ++ [(t, r)]).length
      · rw [if_pos hsz]
        refine ⟨by intro f hf; simp at hf; rw [← hf], ?_⟩
        rw [List.chain'_cons']
        exact ⟨fun g hg => (ih [] t).1 g hg, (ih [] t).2⟩
      · rw [if_neg hsz]
        exact ih (batch ++ [(t, r)]) bs0
    | emptyAt t =>
      simp only [workerLoop]
      by_cases hemp : batch.isEmpty = true
      · rw [if_pos hemp]; exact ih batch bs0
      · rw [if_neg hemp]
        by_cases htm : bw ≤ t - bs0
        · rw [if_pos htm]
          refine ⟨by intro f hf; simp at hf; rw [← hf], ?_⟩
          rw [List.chain'_cons']
          exact ⟨fun g hg => (ih [] t).1 g hg, (ih [] t).2⟩
        · rw [if_neg htm]; exact ih batch bs0
    | sentinelAt t =>
      simp only [workerLoop]
      by_cases hemp : batch.isEmpty = true
      · rw [if_pos hemp]; simp
      · rw [if_neg hemp]
        refine ⟨by intro f hf; simp at hf; rw [← hf], by simp⟩

/-! ## Claim theorems -/

/-- C1: the claim asserts that `run_producer` accepts the fixed-count
argument used by `run_load` and then emits exactly `total_records` records.
The code contradicts it: `max_records` is not among `run_producer`'s
parameters, so the fixed-count call raises `TypeError` before any record is
emitted; and even under the call's `duration_sec=0.0`, a producer loop whose
clock readings are at or after its start reading emits nothing. -/
theorem run_producer_rejects_fixed_count_call :
    kwargsAccepted runProducerParams runLoadFixedCountKwargs = false ∧
    ∀ (clocks : List ℚ) (start interval : ℚ),
      (∀ t ∈ clocks, start ≤ t) →
      (producerLoop 0 start interval clocks ⟨start, 0⟩).emitted = 0 := by
  constructor
  · decide
  · exact producerLoop_zero_duration

/-- C1 witness: the fixed-count call is rejected, and with concrete
monotone clocks the zero-duration loop emits nothing. -/
theorem run_producer_rejects_fixed_count_call_w :
    kwargsAccepted runProducerParams runLoadFixedCountKwargs = false ∧
    (producerLoop 0 0 1 [0, 1] ⟨0, 0⟩).emitted = 0 :=
  ⟨run_producer_rejects_fixed_count_call.1,
   run_producer_rejects_fixed_count_call.2 [0, 1] 0 1 (by
     intro t ht
     simp at ht
     rcases ht with h | h <;> norm_num [h])⟩

/-- C2: the claim asserts a non-positive computed record share is rejected
eagerly before any pipeline component starts.  The code contradicts it: the
configuration `duration=2, rows_per_second=1, processes=4` (with
`workers=5, batch_wait_sec=1`) passes every eager check in `main`, yet the
share of process index 2 is `0`, that child silently returns without ever
waiting on the start barrier, and only 3 of the barrier's 5 parties ever
wait — the parent blocks forever. -/
theorem zero_share_passes_validation :
    mainValidationPasses ⟨2, 100, 1, 5, 1000, 1, 4, 10⟩ = true ∧
    mainTotalRecords ⟨2, 100, 1, 5, 1000, 1, 4, 10⟩ = 2 ∧
    recordsForProcess 2 4 2 = 0 ∧
    childEntersPipeline 2 4 2 = false ∧
    barrierWaiters 2 4 = 3 ∧
    barrierParties 4 = 5 ∧
    barrierWaiters 2 4 < barrierParties 4 := by
  refine ⟨?_, ?_, by decide, by decide, by decide, by decide, by decide⟩
  · norm_num [mainValidationPasses, mainTotalRecords, pyIntTrunc]
  · norm_num [mainTotalRecords, pyIntTrunc]

/-- C3: the claim asserts the maximum-assigned-ordinal query is implemented
and total for both backends.  The clickhouse side is (module attributes
resolve, `-1` on empty, else the maximum), but the postgres backend module
defines neither `get_max_patient_counter` nor
`get_max_patient_counter_standalone`, so both the controlling process's
`get_max_patient_counter_from_db("postgres")` and
`PostgresWorker.get_max_patient_counter` raise `AttributeError`. -/
theorem max_ordinal_query_backend_surface :
    getMaxPatientCounterFromDbResolves "postgres" = false ∧
    pgWorkerGetMaxResolves = false ∧
    moduleResolves pgBackendModuleNames "init_schema_standalone" = false ∧
    getMaxPatientCounterFromDbResolves "clickhouse" = true ∧
    chWorkerGetMaxResolves = true ∧
    chGetMaxPatientCounter [] = -1 ∧
    chGetMaxPatientCounter [3, 7, 5] = 7 := by
  refine ⟨by decide, by decide, by decide, by decide, by decide, by decide, by decide⟩

/-- C5: at every observation point (after any prefix of flushes, each read
under the same lock the updates take), `totalInserted` equals the sum of
flushed batch sizes and `originalInserted + duplicateInserted` equals
`totalInserted`, for both backends' `insert_batch` return conventions. -/
theorem count_conservation :
    ∀ (flushes : List (List PRecord × ℚ)),
      ((statsAfter pgInsertBatchReturn flushes).total
          = (flushes.map (fun f => f.1.length)).sum ∧
        (statsAfter pgInsertBatchReturn flushes).originals
          + (statsAfter pgInsertBatchReturn flushes).duplicates
          = (statsAfter pgInsertBatchReturn flushes).total) ∧
      ((statsAfter chInsertBatchReturn flushes).total
          = (flushes.map (fun f => f.1.length)).sum ∧
        (statsAfter chInsertBatchReturn flushes).originals
          + (statsAfter chInsertBatchReturn flushes).duplicates
          = (statsAfter chInsertBatchReturn flushes).total) := by
  intro flushes
  have hp := statsFold_conserves pgInsertBatchReturn pgInsertBatchReturn_eq_length
    flushes initialInserted
  have hc := statsFold_conserves chInsertBatchReturn chInsertBatchReturn_eq_length
    flushes initialInserted
  constructor
  · constructor
    · simpa [statsAfter, initialInserted] using hp.1
    · have h1 := hp.1
      have h2 := hp.2
      simp only [statsAfter, initialInserted] at *
      omega
  · constructor
    · simpa [statsAfter, initialInserted] using hc.1
    · have h1 := hc.1
      have h2 := hc.2
      simp only [statsAfter, initialInserted] at *
      omega

/-- C9: no data item can be mistaken for a shutdown sentinel — the `is`
test is false on every enqueued record and on every `(mrn, timestamp)`
pair — and a worker fed records followed by a genuine sentinel consumes and
flushes every real item, in order, before returning. -/
theorem sentinel_distinctness :
    (∀ r : PRecord, isInsertionSentinel (InsItem.record r) = false) ∧
    (∀ (mrn : String) (t : ℚ), isQuerySentinel (QueryItem.task mrn t) = false) ∧
    (∀ (batchSize : ℕ) (bw : ℚ) (xs : List (ℚ × PRecord)) (tEnd bs0 : ℚ),
      flushedRecords (workerLoop batchSize bw
          ((xs.map fun p => QEvent.got p.1 p.2) ++ [QEvent.sentinelAt tEnd]) [] bs0)
        = xs.map Prod.snd) := by
  refine ⟨fun r => rfl, fun mrn t => rfl, fun batchSize bw xs tEnd bs0 => ?_⟩
  simpa using workerLoop_consumes batchSize bw xs tEnd [] bs0

/-- C10: `run_producer` is total in `target_rps` — for `target_rps ≤ 0` the
division is guarded, the interval becomes `0.0`, and the producer emits one
record per loop iteration (back-to-back, never taking the sleep branch) for
the full duration. -/
theorem producer_total_in_target_rps :
    ∀ rps : ℤ, rps ≤ 0 →
      producerInterval rps = 0 ∧
      ∀ (clocks : List ℚ) (d start : ℚ),
        List.Chain' (· ≤ ·) clocks →
        (∀ t ∈ clocks, start ≤ t) →
        (producerLoop d start (producerInterval rps) clocks ⟨start, 0⟩).emitted =
          (clocks.takeWhile (fun t => decide (t - start < d))).length := by
  intro rps hrps
  have hint : producerInterval rps = 0 := by
    simp [producerInterval, not_lt.mpr hrps]
  refine ⟨hint, fun clocks d start hchain hmem => ?_⟩
  rw [hint]
  have := producerLoop_zero_interval_emits clocks d start ⟨start, 0⟩ hchain
    (fun t ht => hmem t (by cases clocks with
      | nil => simp at ht
      | cons a l => simp at ht; simp [ht]))
  simpa using this

/-- C10 witness: with `target_rps = -3`, duration 3 and clocks 0, 1, 2 the
producer emits three records, one per iteration. -/
theorem producer_total_in_target_rps_w :
    producerInterval (-3) = 0 ∧
    (producerLoop 3 0 (producerInterval (-3)) [0, 1, 2] ⟨0, 0⟩).emitted = 3 := by
  have h := producer_total_in_target_rps (-3) (by norm_num)
  refine ⟨h.1, ?_⟩
  rw [h.2 [0, 1, 2] 3 0 (by norm_num) (by
    intro t ht
    simp at ht
    rcases ht with h1 | h1 | h1 <;> norm_num [h1])]
  norm_num [List.takeWhile_cons]

/-- C6 counterexample: the claim as stated is false on the code.  A worker
whose previous flush (here: worker start, `batch_start = 0`) is long past
receives its first record at clock 5 and polls empty at clock 5.01; the code
flushes this 1-record batch because `now - batch_start = 5.01 ≥ 1 =
batch_wait_sec`, although the elapsed time since the oldest buffered
record's arrival is only 0.01 and the buffer is far below `batch_size`.
Moreover for `batch_wait_sec = 0.05 > 0` the queue-poll timeout equals
`0.05`, not a value strictly shorter. -/
theorem batch_trigger_counterexample :
    workerLoop 100 1 [QEvent.got 5 ⟨"p", "PATIENT", "x", true⟩,
        QEvent.emptyAt (501 / 100)] [] 0
      = [⟨501 / 100, [(5, ⟨"p", "PATIENT", "x", true⟩)], 0, true, false⟩] ∧
    oldestArrival ⟨501 / 100, [(5, ⟨"p", "PATIENT", "x", true⟩)], 0, true, false⟩
      = some 5 ∧
    (501 / 100 : ℚ) - 5 < 1 ∧
    (0 : ℚ) < 1 / 20 ∧
    getPollTimeout (1 / 20) 0 = 1 / 20 := by
  refine ⟨?_, rfl, by norm_num, by norm_num, ?_⟩
  · norm_num [workerLoop]
  · norm_num [getPollTimeout, min_def, max_def]

/-- C6 amended: an insert worker flushes exactly when (a) the buffer
reaches `batchSize` records — flushing exactly `batchSize` of them — or
(b) a queue poll comes back empty and the elapsed time since the previous
flush (or, before any flush, since worker start) is at least
`batchWaitSeconds`, or (c) the sentinel arrives with a nonempty buffer; the
time-trigger clock is based at the previous flush (worker start for the
first batch), not at the first record's arrival; and the queue-poll timeout
never exceeds `min(0.1, max(batchWaitSeconds, 0.001))`, which is strictly
shorter than `batchWaitSeconds` exactly when `batchWaitSeconds > 0.1`. -/
theorem batch_trigger_amended (batchSize : ℕ) (bw : ℚ) (events : List QEvent)
    (bs0 : ℚ) (hpos : 0 < batchSize) :
    (∀ f ∈ workerLoop batchSize bw events [] bs0,
      (f.byTimeout = false → f.onSentinel = false → f.records.length = batchSize) ∧
      (f.byTimeout = true → bw ≤ f.time - f.batchStartAtFlush)) ∧
    (∀ f ∈ (workerLoop batchSize bw events [] bs0).head?,
      f.batchStartAtFlush = bs0) ∧
    List.Chain' (fun f g => g.batchStartAtFlush = f.time)
      (workerLoop batchSize bw events [] bs0) ∧
    (∀ e : ℚ, 0 ≤ e → getPollTimeout bw e ≤ min (1 / 10) (max bw (1 / 1000))) ∧
    (1 / 10 < bw → ∀ e : ℚ, getPollTimeout bw e < bw) := by
  refine ⟨workerLoop_flush_triggers batchSize bw events [] bs0 (by simpa using hpos),
    (workerLoop_batchStart_chain batchSize bw events [] bs0).1,
    (workerLoop_batchStart_chain batchSize bw events [] bs0).2, ?_, ?_⟩
  · intro e he
    refine le_min (min_le_left _ _) (le_trans (min_le_right _ _) (max_le ?_ ?_))
    · exact le_max_right _ _
    · exact le_trans (by linarith) (le_max_left _ _)
  · intro hbw e
    exact lt_of_le_of_lt (min_le_left _ _) hbw

/-- C6 amended witness: with `batchSize = 2`, `batchWaitSec = 1` and two
records arriving at clocks 0 and 1/2, the single flush is a full-batch flush
of exactly 2 records whose `batch_start` is the worker start; and the first
poll timeout is bounded as stated. -/
theorem batch_trigger_amended_w :
    (⟨1 / 2, [(0, ⟨"p", "PATIENT", "x", true⟩), (1 / 2, ⟨"p", "PATIENT", "x", true⟩)],
        0, false, false⟩ : FlushEvent).records.length = 2 ∧
    (⟨1 / 2, [(0, ⟨"p", "PATIENT", "x", true⟩), (1 / 2, ⟨"p", "PATIENT", "x", true⟩)],
        0, false, false⟩ : FlushEvent).batchStartAtFlush = 0 ∧
    getPollTimeout 1 0 ≤ min (1 / 10) (max 1 (1 / 1000)) := by
  have h := batch_trigger_amended 2 1
    [QEvent.got 0 ⟨"p", "PATIENT", "x", true⟩,
     QEvent.got (1 / 2) ⟨"p", "PATIENT", "x", true⟩, QEvent.emptyAt 7] 0
    (by norm_num)
  have hmem : (⟨1 / 2, [(0, ⟨"p", "PATIENT", "x", true⟩),
      (1 / 2, ⟨"p", "PATIENT", "x", true⟩)], 0, false, false⟩ : FlushEvent)
      ∈ workerLoop 2 1 [QEvent.got 0 ⟨"p", "PATIENT", "x", true⟩,
        QEvent.got (1 / 2) ⟨"p", "PATIENT", "x", true⟩, QEvent.emptyAt 7] [] 0 := by
    norm_num [workerLoop]
  refine ⟨(h.1 _ hmem).1 rfl rfl, ?_, h.2.2.2.1 0 le_rfl⟩
  have hhead : ∀ f ∈ (workerLoop 2 1 [QEvent.got 0 ⟨"p", "PATIENT", "x", true⟩,
      QEvent.got (1 / 2) ⟨"p", "PATIENT", "x", true⟩, QEvent.emptyAt 7] [] 0).head?,
      f.batchStartAtFlush = 0 := h.2.1
  apply hhead
  norm_num [workerLoop]

/-- C7: the claim asserts the aggregator's last printed cross-process total
equals the true end-of-run values.  The code contradicts it: the aggregator
breaks out of its loop the moment the stop event is observed, with no final
drain-and-log pass, so a final snapshot enqueued after the last timed-out
tick is never logged.  Concretely, with one process whose only (final)
snapshot totals 5: if the stop event is observed on the wait after an empty
tick, the last logged total is 0; had another timed-out tick occurred before
stop, 5 would have been logged — the data was available on the queue. -/
theorem final_snapshot_can_go_unlogged :
    aggLoop 1 [WaitOutcome.timedOut [], WaitOutcome.stopped] (fun _ => zeroSnap)
      = [zeroSnap] ∧
    aggLoop 1 [WaitOutcome.timedOut [],
        WaitOutcome.timedOut [(0, ⟨5, 3, 2, 1, 10, 2⟩)], WaitOutcome.stopped]
      (fun _ => zeroSnap)
      = [zeroSnap, ⟨5, 3, 2, 1, 10, 2⟩] ∧
    latestSnap [(0, ⟨5, 3, 2, 1, 10, 2⟩)] 0 = ⟨5, 3, 2, 1, 10, 2⟩ ∧
    zeroSnap.total = 0 ∧ (⟨5, 3, 2, 1, 10, 2⟩ : Snap).total = 5 := by
  have hr1 : List.range 1 = [0] := rfl
  refine ⟨?_, ?_, rfl, rfl, rfl⟩
  · norm_num [aggLoop, sumStats, snapAdd, zeroSnap, hr1]
  · norm_num [aggLoop, sumStats, snapAdd, zeroSnap, updateStats, hr1]

/-- `snapLe` is reflexive. -/
theorem snapLe_refl (a : Snap) : snapLe a a = true := by
  simp [snapLe]

/-- `snapLe` is transitive. -/
theorem snapLe_trans {a b c : Snap} (h1 : snapLe a b = true)
    (h2 : snapLe b c = true) : snapLe a c = true := by
  simp only [snapLe, Bool.and_eq_true, decide_eq_true_eq] at h1 h2 ⊢
  obtain ⟨⟨⟨⟨⟨a1, a2⟩, a3⟩, a4⟩, a5⟩, a6⟩ := h1
  obtain ⟨⟨⟨⟨⟨b1, b2⟩, b3⟩, b4⟩, b5⟩, b6⟩ := h2
  exact ⟨⟨⟨⟨⟨a1.trans b1, a2.trans b2⟩, a3.trans b3⟩, a4.trans b4⟩,
    a5.trans b5⟩, a6.trans b6⟩

/-- `snapAdd` is monotone in both arguments. -/
theorem snapLe_add {a b c d : Snap} (h1 : snapLe a b = true)
    (h2 : snapLe c d = true) : snapLe (snapAdd a c) (snapAdd b d) = true := by
  simp only [snapLe, snapAdd, Bool.and_eq_true, decide_eq_true_eq] at h1 h2 ⊢
  obtain ⟨⟨⟨⟨⟨a1, a2⟩, a3⟩, a4⟩, a5⟩, a6⟩ := h1
  obtain ⟨⟨⟨⟨⟨b1, b2⟩, b3⟩, b4⟩, b5⟩, b6⟩ := h2
  exact ⟨⟨⟨⟨⟨add_le_add a1 b1, add_le_add a2 b2⟩, add_le_add a3 b3⟩,
    add_le_add a4 b4⟩, add_le_add a5 b5⟩, add_le_add a6 b6⟩

/-- Elementwise sums over the index range are monotone. -/
theorem sumStats_mono (n : ℕ) (f g : ℕ → Snap)
    (h : ∀ i, i < n → snapLe (f i) (g i) = true) :
    snapLe (sumStats n f) (sumStats n g) = true := by
  have hgen : ∀ (l : List ℕ) (acc1 acc2 : Snap), snapLe acc1 acc2 = true →
      (∀ i ∈ l, snapLe (f i) (g i) = true) →
      snapLe (l.foldl (fun acc i => snapAdd acc (f i)) acc1)
        (l.foldl (fun acc i => snapAdd acc (g i)) acc2) = true := by
    intro l
    induction l with
    | nil => intro acc1 acc2 hacc _; simpa using hacc
    | cons x l ih =>
      intro acc1 acc2 hacc hl
      exact ih (snapAdd acc1 (f x)) (snapAdd acc2 (g x))
        (snapLe_add hacc (hl x (by simp)))
        (fun i hi => hl i (by simp [hi]))
  exact hgen (List.range n) zeroSnap zeroSnap (snapLe_refl _)
    (fun i hi => h i (List.mem_range.mp hi))

/-- Draining messages into the latest-snapshot table over `acc` yields the
latest-snapshot table over `acc ++ msgs`. -/
theorem foldl_update_eq_latest :
    ∀ (msgs acc : List ProgressMsg),
      msgs.foldl updateStats (latestSnap acc) = latestSnap (acc ++ msgs) := by
  intro msgs
  induction msgs with
  | nil => intro acc; simp
  | cons m rest ih =>
    intro acc
    have h1 : updateStats (latestSnap acc) m = latestSnap (acc ++ [m]) := by
      funext j
      simp [updateStats, latestSnap, List.foldl_append]
    calc (m :: rest).foldl updateStats (latestSnap acc)
        = rest.foldl updateStats (updateStats (latestSnap acc) m) := rfl
      _ = rest.foldl updateStats (latestSnap (acc ++ [m])) := by rw [h1]
      _ = latestSnap ((acc ++ [m]) ++ rest) := ih (acc ++ [m])
      _ = latestSnap (acc ++ m :: rest) := by simp

/-- The aggregator loop's logged totals refine the spec-side recomputation
from the latest snapshot per index. -/
theorem aggLoop_eq_spec (n : ℕ) :
    ∀ (outcomes : List WaitOutcome) (acc : List ProgressMsg),
      aggLoop n outcomes (latestSnap acc) = aggSpecTotals n outcomes acc := by
  intro outcomes
  induction outcomes with
  | nil => intro acc; rfl
  | cons o rest ih =>
    intro acc
    cases o with
    | stopped => rfl
    | timedOut msgs =>
      show sumStats n (msgs.foldl updateStats (latestSnap acc))
            :: aggLoop n rest (msgs.foldl updateStats (latestSnap acc))
          = sumStats n (latestSnap (acc ++ msgs)) :: aggSpecTotals n rest (acc ++ msgs)
      rw [foldl_update_eq_latest msgs acc, ih (acc ++ msgs)]

/-- Unfolding of the per-index projection on a cons cell. -/
theorem projMsgs_cons (i : ℕ) (m : ProgressMsg) (rest : List ProgressMsg) :
    projMsgs i (m :: rest)
      = if m.1 = i then m.2 :: projMsgs i rest else projMsgs i rest := by
  by_cases hm : m.1 = i
  · simp [projMsgs, List.filterMap_cons, hm]
  · simp [projMsgs, List.filterMap_cons, hm]

/-- The latest snapshot for an index is the last entry of that index's
projected message sequence. -/
theorem latest_eq_getLastD :
    ∀ (msgs : List ProgressMsg) (init : Snap) (i : ℕ),
      msgs.foldl (fun acc m => if m.1 = i then m.2 else acc) init
        = (projMsgs i msgs).getLastD init := by
  intro msgs
  induction msgs with
  | nil => intro init i; rfl
  | cons m rest ih =>
    intro init i
    rw [projMsgs_cons]
    by_cases hm : m.1 = i
    · rw [if_pos hm, List.getLastD_cons]
      simp only [List.foldl_cons, if_pos hm]
      exact ih m.2 i
    · rw [if_neg hm]
      simp only [List.foldl_cons, if_neg hm]
      exact ih init i

/-- Along a `snapLe` chain headed by `d`, `d` is below the last element. -/
theorem chain_head_le_getLastD :
    ∀ (m : List Snap) (d : Snap),
      List.Chain' (fun a b => snapLe a b = true) (d :: m) →
      snapLe d (m.getLastD d) = true := by
  intro m
  induction m with
  | nil => intro d _; exact snapLe_refl d
  | cons x m' ih =>
    intro d hchain
    rw [List.getLastD_cons]
    exact snapLe_trans (List.chain'_cons.mp hchain).1
      (ih x (List.chain'_cons.mp hchain).2)

/-- Along a `snapLe` chain, the last element of a prefix is below the last
element of the whole list. -/
theorem chain_getLastD_le :
    ∀ (l m : List Snap) (d : Snap),
      List.Chain' (fun a b => snapLe a b = true) (d :: (l ++ m)) →
      snapLe (l.getLastD d) ((l ++ m).getLastD d) = true := by
  intro l
  induction l with
  | nil =>
    intro m d hchain
    simpa using chain_head_le_getLastD m d (by simpa using hchain)
  | cons a l' ih =>
    intro m d hchain
    rw [List.cons_append, List.getLastD_cons, List.getLastD_cons]
    exact ih m a (by
      have := List.chain'_cons.mp hchain
      simpa using this.2)

/-- The spec-side tick totals form a `snapLe` chain when every process
index's snapshot stream is elementwise non-decreasing from zero. -/
theorem aggSpec_chain (n : ℕ) :
    ∀ (outcomes : List WaitOutcome) (acc : List ProgressMsg),
      (∀ i, i < n → List.Chain' (fun a b => snapLe a b = true)
        (zeroSnap :: projMsgs i (acc ++ drainedMsgs outcomes))) →
      List.Chain' (fun a b => snapLe a b = true)
        (sumStats n (latestSnap acc) :: aggSpecTotals n outcomes acc) := by
  intro outcomes
  induction outcomes with
  | nil => intro acc _; simp [aggSpecTotals]
  | cons o rest ih =>
    intro acc hmono
    cases o with
    | stopped => simp [aggSpecTotals]
    | timedOut msgs =>
      show List.Chain' _ (sumStats n (latestSnap acc)
        :: sumStats n (latestSnap (acc ++ msgs)) :: aggSpecTotals n rest (acc ++ msgs))
      have hmono' : ∀ i, i < n → List.Chain' (fun a b => snapLe a b = true)
          (zeroSnap :: projMsgs i ((acc ++ msgs) ++ drainedMsgs rest)) := by
        intro i hi
        have := hmono i hi
        simpa [drainedMsgs, List.append_assoc] using this
      rw [List.chain'_cons]
      constructor
      · apply sumStats_mono
        intro i hi
        have hcut : List.Chain' (fun a b => snapLe a b = true)
            (zeroSnap :: (projMsgs i acc ++ projMsgs i msgs)) := by
          have hfull := hmono' i hi
          have : projMsgs i ((acc ++ msgs) ++ drainedMsgs rest)
              = (projMsgs i acc ++ projMsgs i msgs) ++ projMsgs i (drainedMsgs rest) := by
            simp [projMsgs, List.filterMap_append]
          rw [this] at hfull
          have hsplit : zeroSnap :: ((projMsgs i acc ++ projMsgs i msgs)
              ++ projMsgs i (drainedMsgs rest))
              = (zeroSnap :: (projMsgs i acc ++ projMsgs i msgs))
                ++ projMsgs i (drainedMsgs rest) := by simp
          rw [hsplit] at hfull
          exact hfull.left_of_append
        have hlat : ∀ (ms : List ProgressMsg), latestSnap ms i
            = (projMsgs i ms).getLastD zeroSnap := by
          intro ms; exact latest_eq_getLastD ms zeroSnap i
        rw [hlat acc, hlat (acc ++ msgs)]
        have : projMsgs i (acc ++ msgs) = projMsgs i acc ++ projMsgs i msgs := by
          simp [projMsgs, List.filterMap_append]
        rw [this]
        exact chain_getLastD_le (projMsgs i acc) (projMsgs i msgs) zeroSnap hcut
      · exact ih (acc ++ msgs) hmono'

/-- C8: on every reporting tick the logged cross-process cumulative totals
equal the elementwise sum over all process indices of the latest snapshot
received from each index (missing indices contributing zero), at whatever
cadence snapshots arrive; and because each process's successive snapshots
are elementwise non-decreasing (and non-negative), the logged totals never
decrease from one tick to the next.  The index-bound hypothesis states that
every message is tagged with a process index the table was initialised for,
which is how `run_progress_reporter` tags them. -/
theorem aggregation_tick_totals (n : ℕ) (outcomes : List WaitOutcome)
    (_hidx : ∀ m ∈ drainedMsgs outcomes, m.1 < n)
    (hmono : ∀ i, i < n → List.Chain' (fun a b => snapLe a b = true)
      (zeroSnap :: projMsgs i (drainedMsgs outcomes))) :
    aggLoop n outcomes (fun _ => zeroSnap) = aggSpecTotals n outcomes [] ∧
    List.Chain' (fun a b => snapLe a b = true)
      (aggLoop n outcomes (fun _ => zeroSnap)) := by
  have hzero : (fun _ => zeroSnap : ℕ → Snap) = latestSnap [] := by
    funext i; rfl
  have heq : aggLoop n outcomes (fun _ => zeroSnap) = aggSpecTotals n outcomes [] := by
    rw [hzero]; exact aggLoop_eq_spec n outcomes []
  refine ⟨heq, ?_⟩
  rw [heq]
  have := aggSpec_chain n outcomes [] (by
    intro i hi
    simpa using hmono i hi)
  exact this.tail

/-- C8 witness: two processes report at different cadences; the logged
totals match the spec-side recomputation and never decrease. -/
theorem aggregation_tick_totals_w :
    aggLoop 2 [WaitOutcome.timedOut [(0, ⟨1, 1, 0, 0, 0, 0⟩)],
        WaitOutcome.timedOut [(1, ⟨2, 1, 1, 0, 4, 2⟩), (0, ⟨3, 2, 1, 1, 2, 1⟩)],
        WaitOutcome.stopped] (fun _ => zeroSnap)
      = aggSpecTotals 2 [WaitOutcome.timedOut [(0, ⟨1, 1, 0, 0, 0, 0⟩)],
          WaitOutcome.timedOut [(1, ⟨2, 1, 1, 0, 4, 2⟩), (0, ⟨3, 2, 1, 1, 2, 1⟩)],
          WaitOutcome.stopped] [] ∧
    List.Chain' (fun a b => snapLe a b = true)
      (aggLoop 2 [WaitOutcome.timedOut [(0, ⟨1, 1, 0, 0, 0, 0⟩)],
          WaitOutcome.timedOut [(1, ⟨2, 1, 1, 0, 4, 2⟩), (0, ⟨3, 2, 1, 1, 2, 1⟩)],
          WaitOutcome.stopped] (fun _ => zeroSnap)) := by
  apply aggregation_tick_totals
  · intro m hm
    simp [drainedMsgs] at hm
    rcases hm with h | h | h <;> simp [h]
  · intro i hi
    interval_cases i <;>
      simp [drainedMsgs, projMsgs_cons, projMsgs, snapLe, zeroSnap]

/-- `n_unique` is positive. -/
theorem nUnique_pos (pc : ℕ) : 1 ≤ nUnique pc :=
  le_max_left 1 _

/-- Length of one generated block. -/
theorem genBulk_length (s pc : ℕ) :
    (generateBulkPatients s pc).length = nUnique pc + (pc - nUnique pc) := by
  simp [generateBulkPatients]

/-- `n_unique` is at most the block length. -/
theorem nUnique_le_genBulk_length (s pc : ℕ) :
    nUnique pc ≤ (generateBulkPatients s pc).length := by
  rw [genBulk_length]; omega

/-- Every record of a generated block has ordinal at least `start`. -/
theorem genBulk_mem_lower {s pc : ℕ} {x : ℕ × Bool}
    (hx : x ∈ generateBulkPatients s pc) : s ≤ x.1 := by
  rcases List.mem_append.mp hx with h | h
  · rcases List.mem_map.mp h with ⟨i, _, rfl⟩
    exact Nat.le_add_right s i
  · rcases List.mem_map.mp h with ⟨j, _, rfl⟩
    exact Nat.le_add_right s _

/-- Every record of a generated block has ordinal below `start + n_unique`. -/
theorem genBulk_mem_upper {s pc : ℕ} {x : ℕ × Bool}
    (hx : x ∈ generateBulkPatients s pc) : x.1 < s + nUnique pc := by
  rcases List.mem_append.mp hx with h | h
  · rcases List.mem_map.mp h with ⟨i, hi, rfl⟩
    have : i < nUnique pc := List.mem_range.mp hi
    omega
  · rcases List.mem_map.mp h with ⟨j, _, rfl⟩
    have : j % nUnique pc < nUnique pc := Nat.mod_lt j (nUnique_pos pc)
    omega

/-- Every record among the first `e` of a generated block has ordinal below
`start + e`: the uniques come first with consecutive ordinals, and the
duplicates only reference ordinals of earlier uniques. -/
theorem genBulk_take_upper {s pc e : ℕ} {x : ℕ × Bool}
    (hx : x ∈ (generateBulkPatients s pc).take e) : x.1 < s + e := by
  rw [generateBulkPatients, List.take_append_eq_append_take] at hx
  rcases List.mem_append.mp hx with h | h
  · rw [← List.map_take, List.take_range] at h
    rcases List.mem_map.mp h with ⟨i, hi, rfl⟩
    have : i < min e (nUnique pc) := List.mem_range.mp hi
    omega
  · have hlenU : ((List.range (nUnique pc)).map
        (fun i => (s + i, true))).length = nUnique pc := by simp
    rw [hlenU] at h
    have hne : e - nUnique pc ≠ 0 := by
      intro h0
      rw [h0] at h
      simp at h
    rcases List.mem_map.mp (List.mem_of_mem_take h) with ⟨j, _, rfl⟩
    have h1 : j % nUnique pc < nUnique pc := Nat.mod_lt j (nUnique_pos pc)
    omega

/-- Popping from a pre-filled buffer first drains the buffer, then behaves
like the empty-buffer producer. -/
theorem producerEmitted_structure :
    ∀ (e : ℕ) (buf : List (ℕ × Bool)) (pc start : ℕ),
      producerEmitted e buf pc start
        = buf.take e ++ producerEmitted (e - buf.length) [] pc start := by
  intro e
  induction e with
  | zero => intro buf pc start; cases buf <;> simp [producerEmitted]
  | succ e ih =>
    intro buf pc start
    cases buf with
    | nil => simp
    | cons p rest =>
      show p :: producerEmitted e rest pc start = _
      rw [ih rest pc start, List.take_succ_cons]
      simp [Nat.succ_sub_succ]

/-- One refill step of the producer from an empty buffer. -/
theorem producerEmitted_refill (e pc start : ℕ) (he : 1 ≤ e) :
    producerEmitted e [] pc start
      = (generateBulkPatients start pc).take e
        ++ producerEmitted (e - (generateBulkPatients start pc).length) [] pc
            (start + nUnique pc) := by
  obtain ⟨e', rfl⟩ : ∃ e', e = e' + 1 := ⟨e - 1, by omega⟩
  cases hgb : generateBulkPatients start pc with
  | nil =>
    exfalso
    have := nUnique_le_genBulk_length start pc
    rw [hgb] at this
    have := nUnique_pos pc
    simp at *
    omega
  | cons p rest =>
    show (match generateBulkPatients start pc with
      | [] => []
      | p :: rest => p :: producerEmitted e' rest pc (start + nUnique pc)) = _
    rw [hgb]
    simp only [List.take_succ_cons, List.length_cons, Nat.succ_sub_succ]
    rw [producerEmitted_structure e' rest pc (start + nUnique pc)]
    simp

/-- Containment: a producer that starts at `start` and emits `e` records
only ever emits ordinals in `[start, start + e)`. -/
theorem producerEmitted_mem_bounds :
    ∀ (e pc start : ℕ) (x : ℕ × Bool),
      x ∈ producerEmitted e [] pc start → start ≤ x.1 ∧ x.1 < start + e := by
  intro e
  induction e using Nat.strong_induction_on with
  | _ e ih =>
    intro pc start x hx
    rcases Nat.eq_zero_or_pos e with he | he
    · subst he; simp [producerEmitted] at hx
    · rw [producerEmitted_refill e pc start he] at hx
      rcases List.mem_append.mp hx with h | h
      · exact ⟨genBulk_mem_lower (List.mem_of_mem_take h), genBulk_take_upper h⟩
      · have hU1 : 1 ≤ nUnique pc := nUnique_pos pc
        have hUL : nUnique pc ≤ (generateBulkPatients start pc).length :=
          nUnique_le_genBulk_length start pc
        by_cases hcase : e ≤ (generateBulkPatients start pc).length
        · have h0 : e - (generateBulkPatients start pc).length = 0 := by omega
          rw [h0] at h
          simp [producerEmitted] at h
        · have hlt : e - (generateBulkPatients start pc).length < e := by omega
          have hb := ih (e - (generateBulkPatients start pc).length) hlt pc
            (start + nUnique pc) x h
          constructor
          · omega
          · omega

/-- `patient_starts` is monotone in the process index. -/
theorem patientStart_mono (base total procs : ℕ) :
    ∀ i j : ℕ, i ≤ j →
      patientStart base total procs i ≤ patientStart base total procs j := by
  intro i j
  induction j with
  | zero => intro h; simp at h; subst h; exact le_rfl
  | succ j ihj =>
    intro h
    rcases Nat.eq_or_lt_of_le h with h1 | h1
    · subst h1; exact le_rfl
    · have : i ≤ j := by omega
      calc patientStart base total procs i ≤ patientStart base total procs j := ihj this
        _ ≤ patientStart base total procs (j + 1) := by
            show _ ≤ patientStart base total procs j + recordsForProcess total procs j
            omega

/-- A process's range ends before any later process's range begins. -/
theorem patientStart_range_le (base total procs : ℕ) {i j : ℕ} (hij : i < j) :
    patientStart base total procs i + recordsForProcess total procs i
      ≤ patientStart base total procs j := by
  have h1 : patientStart base total procs (i + 1)
      = patientStart base total procs i + recordsForProcess total procs i := rfl
  rw [← h1]
  exact patientStart_mono base total procs (i + 1) j hij

/-- With `patient_count = 1` a generated block is a single original record. -/
theorem genBulk_one (start : ℕ) :
    generateBulkPatients start 1 = [(start, true)] := by
  have h1 : nUnique 1 = 1 := by norm_num [nUnique]
  have hr : List.range 1 = [0] := rfl
  rw [generateBulkPatients, h1, hr]
  simp

/-- With `patient_count = 1` every emission consumes exactly one ordinal, so
the producer emits consecutive ordinals from its start. -/
theorem producerEmitted_pc_one_mem :
    ∀ (e i start : ℕ), i < e →
      ((start + i, true) : ℕ × Bool) ∈ producerEmitted e [] 1 start := by
  intro e
  induction e with
  | zero => intro i start h; omega
  | succ e ih =>
    intro i start h
    have hstep : producerEmitted (e + 1) [] 1 start
        = (start, true) :: producerEmitted e [] 1 (start + 1) := by
      rw [producerEmitted_refill (e + 1) 1 start (by omega), genBulk_one]
      norm_num [nUnique]
    rw [hstep]
    rcases Nat.eq_zero_or_pos i with hi | hi
    · subst hi; simp
    · obtain ⟨i', rfl⟩ : ∃ i', i = i' + 1 := ⟨i - 1, by omega⟩
      have harith : ((start + (i' + 1), true) : ℕ × Bool)
          = ((start + 1) + i', true) := by
        rw [show start + (i' + 1) = (start + 1) + i' by omega]
      rw [harith]
      exact List.mem_cons_of_mem _ (ih i' (start + 1) (by omega))

/-- C4 counterexample: the claim as stated is false on the code.  Nothing
bounds how many records a duration-mode producer thread emits (it emits
about `duration * rps` records, and the refill logic advances
`patient_start` without bound), so a thread can outrun its 10,000,000-wide
stride.  Concretely, with `patient_count = 1` each emission consumes one
ordinal: producer thread 0 (start `base + 0 * 10_000_000 = 0`) emitting
10,000,001 records emits the ordinal 10,000,000, which is the base — and
the first emitted ordinal — of producer thread 1's range: the two threads
emit the same business key. -/
theorem producer_stride_collision :
    producerThreadStart 0 1 = 10000000 ∧
    ((10000000, true) : ℕ × Bool)
      ∈ producerEmitted 10000001 [] 1 (producerThreadStart 0 0) ∧
    ((10000000, true) : ℕ × Bool)
      ∈ producerEmitted 1 [] 1 (producerThreadStart 0 1) := by
  refine ⟨by norm_num [producerThreadStart], ?_, ?_⟩
  · have h := producerEmitted_pc_one_mem 10000001 10000000 0 (by norm_num)
    simpa [producerThreadStart] using h
  · have h := producerEmitted_pc_one_mem 1 0 10000000 (by norm_num)
    simpa [producerThreadStart] using h

/-- C4 amended: identifier disjointness, bounded by what each mode actually
assigns.  Distinct processes receive the prefix-sum ranges
`[patient_starts[i], patient_starts[i] + share_i)`, and a producer emitting
at most its share from its range start never emits an ordinal of another
process's range — fixed-count mode assigns exactly `share_i` records, so
this part is unconditional for the Orchestrator.  Two producer threads of
one duration-based process, whose starts are `base + index * 10_000_000`,
never collide while each has emitted at most `10_000_000` records — the
width of the stride; beyond that bound they can collide, as the
counterexample above shows. -/
theorem ordinal_ranges_disjoint
    (total procs base pc i j ei ej k l fk fl : ℕ)
    (hij : i ≠ j)
    (hei : ei ≤ recordsForProcess total procs i)
    (hej : ej ≤ recordsForProcess total procs j)
    (hkl : k ≠ l)
    (hfk : fk ≤ 10000000) (hfl : fl ≤ 10000000) :
    List.Disjoint
      ((producerEmitted ei [] pc (patientStart base total procs i)).map Prod.fst)
      ((producerEmitted ej [] pc (patientStart base total procs j)).map Prod.fst) ∧
    List.Disjoint
      ((producerEmitted fk [] pc (producerThreadStart base k)).map Prod.fst)
      ((producerEmitted fl [] pc (producerThreadStart base l)).map Prod.fst) := by
  constructor
  · intro a ha hb
    rcases List.mem_map.mp ha with ⟨x, hx, hxa⟩
    rcases List.mem_map.mp hb with ⟨y, hy, hya⟩
    have hbx := producerEmitted_mem_bounds ei pc (patientStart base total procs i) x hx
    have hby := producerEmitted_mem_bounds ej pc (patientStart base total procs j) y hy
    rcases Nat.lt_or_ge i j with hlt | hge
    · have hr := patientStart_range_le base total procs hlt
      omega
    · have hlt : j < i := by omega
      have hr := patientStart_range_le base total procs hlt
      omega
  · intro a ha hb
    rcases List.mem_map.mp ha with ⟨x, hx, hxa⟩
    rcases List.mem_map.mp hb with ⟨y, hy, hya⟩
    have hbx := producerEmitted_mem_bounds fk pc (producerThreadStart base k) x hx
    have hby := producerEmitted_mem_bounds fl pc (producerThreadStart base l) y hy
    simp only [producerThreadStart] at hbx hby
    rcases Nat.lt_or_ge k l with hlt | hge
    · have hmul : (k + 1) * 10000000 ≤ l * 10000000 :=
        Nat.mul_le_mul_right _ (by omega)
      have hexp : (k + 1) * 10000000 = k * 10000000 + 10000000 := by ring
      omega
    · have hlt : l < k := by omega
      have hmul : (l + 1) * 10000000 ≤ k * 10000000 :=
        Nat.mul_le_mul_right _ (by omega)
      have hexp : (l + 1) * 10000000 = l * 10000000 + 10000000 := by ring
      omega

/-- C4 witness: with total 5, two processes (shares 3 and 2, prefix starts
0 and 3) and patient pool size 4, the two processes' emitted ordinals are
disjoint; likewise two producer threads at the 10,000,000 stride each
emitting 2 records. -/
theorem ordinal_ranges_disjoint_w :
    List.Disjoint
      ((producerEmitted 3 [] 4 (patientStart 0 5 2 0)).map Prod.fst)
      ((producerEmitted 2 [] 4 (patientStart 0 5 2 1)).map Prod.fst) ∧
    List.Disjoint
      ((producerEmitted 2 [] 4 (producerThreadStart 0 0)).map Prod.fst)
      ((producerEmitted 2 [] 4 (producerThreadStart 0 1)).map Prod.fst) :=
  ordinal_ranges_disjoint 5 2 0 4 0 1 3 2 0 1 2 2
    (by decide) (by decide) (by decide) (by decide) (by decide) (by decide)
